import Mathlib

/-!
Shallow embedding of the SIH train-section scheduler (src/optimizer.py).

The script parses trains and tracks from JSON, derives each track's traversal
duration, builds a CP-SAT model (start/end integer variables, one boolean per
train/track pair, optional interval variables, a no-overlap constraint per
track, a weighted-completion objective), solves it under a 10 s budget, and on
OPTIMAL/FEASIBLE writes the enriched train records to output.json.

Modelling conventions:
- Python ints are `ℤ` / `ℕ`; `int(x)` for a float expression is modelled as
  truncation toward zero of the exact rational (`pyInt`); the JSON floats
  `length_km` and `speed_kmph` are modelled as exact rationals.
- Python exceptions that abort the script (ZeroDivisionError from
  `length_km / speed_kmph` with zero speed, ValueError from `max()` of an
  empty sequence) are an `Except` error of the pipeline.
- A solution of the CP-SAT model is an `Assignment`; the predicate `feasible`
  states exactly the constraints posted by lines 52-84 of optimizer.py,
  including the CP-SAT semantics of `NewOptionalIntervalVar` (the relation
  `start + size = end` is enforced iff the presence literal is true) and of
  `AddNoOverlap` (present intervals are pairwise disjoint as half-open sets
  of time points).
-/

namespace SIH

/-! ### Time codec (optimizer.py lines 8-17) -/

/-- `parse_time_to_minutes` (line 8): "HH:MM" already split into the two
numeric fields `h` and `m`. -/
def parse_time_to_minutes (h m : ℕ) : ℕ := h * 60 + m

/-- Zero padding used by `strftime` for `%I` and `%M`. -/
def twoDigits (n : ℕ) : String := (if n < 10 then "0" else "") ++ toString n

/-- `minutes_to_clock` (lines 13-17): `datetime("00:00") + timedelta(minutes=m)`
has hour-of-day `m / 60 % 24` and minute `m % 60`; `strftime("%I:%M %p")`
prints only those two fields, 12-hour labelled. -/
def minutes_to_clock (m : ℕ) : String :=
  twoDigits (if m / 60 % 24 % 12 = 0 then 12 else m / 60 % 24 % 12) ++ ":" ++
    twoDigits (m % 60) ++ " " ++ (if m / 60 % 24 < 12 then "AM" else "PM")

/-! ### Python helpers -/

/-- Python `int(q)`: truncation of the exact value toward zero. -/
def pyInt (q : ℚ) : ℤ := if 0 ≤ q then ⌊q⌋ else -⌊-q⌋

/-- Python `max(seq)` for a sequence of comparables.  Python raises ValueError
on an empty sequence; every use below either guards emptiness explicitly or
holds it under a nonemptiness hypothesis, so the default value of the `[]`
case is never observable. -/
def pymax {α : Type} [LinearOrder α] (dflt : α) : List α → α
  | [] => dflt
  | x :: xs => xs.foldl max x

/-! ### Input records (optimizer.py lines 22-35) -/

/-- One entry of `raw_data["junction"]["tracks"]`. -/
structure Track where
  length_km : ℚ
  speed_kmph : ℚ
deriving DecidableEq

/-- One entry of `raw_data["trains"]`, reduced to the fields the model reads;
`arrival_min = parse_time_to_minutes(arrival_time)` (line 35). -/
structure TrainIn where
  train_name : String
  priority : ℤ
  arrival_min : ℕ
deriving DecidableEq

/-- The two exception kinds the script can die of before model construction. -/
inductive PyError where
  | zeroDivisionError
  | valueError
deriving DecidableEq

/-- Line 32: `time_min = int((tr["length_km"] / tr["speed_kmph"]) * 60)`.
`none` is the ZeroDivisionError raised when `speed_kmph == 0`; any nonzero
speed (negative included) divides without error. -/
def durationOfTrack (tr : Track) : Option ℤ :=
  if tr.speed_kmph = 0 then none
  else some (pyInt (tr.length_km / tr.speed_kmph * 60))

/-- Lines 30-33: the per-track duration list (identical for every train);
`none` when the loop raises on some zero-speed track. -/
def computeDurations : List Track → Option (List ℤ)
  | [] => some []
  | tr :: rest =>
    match durationOfTrack tr, computeDurations rest with
    | some d, some ds => some (d :: ds)
    | _, _ => none

/-- Line 43: `max(t["arrival_min"] for t in trains)` (callers guard `[]`). -/
def latest_arrival (arrivals : List ℕ) : ℕ := pymax 0 arrivals

/-- Line 44: since every train carries the same duration list, the nested max
equals the max over the per-track durations (callers guard `[]`). -/
def longest_run (durations : List ℤ) : ℤ := pymax 0 durations

/-- The data the CP-SAT model is built from: per-track durations and per-train
release times in minutes. -/
structure ModelInput where
  durations : List ℤ
  arrivals : List ℕ
deriving DecidableEq

/-- Line 45: `horizon = latest_arrival + longest_run + 600`. -/
def horizon (I : ModelInput) : ℤ :=
  (latest_arrival I.arrivals : ℤ) + longest_run I.durations + 600

/-- Lines 29-45 of the script: everything that runs before `model = CpModel()`
touches a variable the model needs.  Errors:
- trains empty: the duration loop body never runs, then line 43's `max()`
  over no trains raises ValueError;
- some track has zero speed (and trains nonempty): line 32 raises
  ZeroDivisionError;
- tracks empty (and trains nonempty): line 44's inner `max()` over the empty
  duration list raises ValueError.
On success it returns the duration list and the horizon. -/
def preModel (tracks : List Track) (trains : List TrainIn) :
    Except PyError (List ℤ × ℤ) :=
  match trains with
  | [] => Except.error PyError.valueError
  | _ :: _ =>
    match computeDurations tracks with
    | none => Except.error PyError.zeroDivisionError
    | some ds =>
      if ds.isEmpty then Except.error PyError.valueError
      else Except.ok (ds, horizon { durations := ds, arrivals := trains.map (·.arrival_min) })

/-! ### Solver status and reporting (optimizer.py lines 104-135) -/

/-- The CP-SAT statuses `solver.Solve` can return. -/
inductive CpStatus where
  | optimal
  | feasible
  | infeasible
  | model_invalid
  | unknown
deriving DecidableEq

/-- Line 113: `status in (cp_model.OPTIMAL, cp_model.FEASIBLE)`. -/
def isSuccess : CpStatus → Bool
  | CpStatus.optimal => true
  | CpStatus.feasible => true
  | _ => false

/-- The one line the script prints at the end (lines 133 and 135); every
non-success status falls into the same `else` branch. -/
def statusMessage (st : CpStatus) : String :=
  if isSuccess st then "Section schedule saved to output.json"
  else "No feasible solution found."

/-- Whether output.json is written (lines 130-131): only on success. -/
def writesOutput (st : CpStatus) : Bool := isSuccess st

/-- What an external caller of the script can observe. -/
inductive RunOutcome where
  | uncaught (e : PyError)
  | noFeasibleMessage
  | saved
deriving DecidableEq

/-- The whole run, with the external solver's status as a parameter: either
an uncaught exception before model construction, or the script's two
terminal branches. -/
def runOutcome (tracks : List Track) (trains : List TrainIn) (st : CpStatus) :
    RunOutcome :=
  match preModel tracks trains with
  | Except.error e => RunOutcome.uncaught e
  | Except.ok _ => if isSuccess st then RunOutcome.saved else RunOutcome.noFeasibleMessage

/-! ### Objective (optimizer.py lines 94-99) -/

/-- Line 96: `weight = 10 - t["priority"]`, with no clamp. -/
def weight (priority : ℤ) : ℤ := 10 - priority

/-- Lines 94-99: `Minimize(sum(weight * end))` over the trains, here as a
function of the priorities and the end values. -/
def objective (prios ends : List ℤ) : ℤ :=
  (List.zipWith (fun p e => weight p * e) prios ends).sum

/-! ### The CP-SAT model (optimizer.py lines 52-84) -/

/-- A valuation of all decision variables the model declares for an input
with trains indexed `0..n-1` and tracks indexed `0..K-1`:
`start i`/`endv i` are `start_{name}`/`end_{name}` (lines 54-55), `assign i k`
is the boolean `{name}_on_track{k}` (line 66), and `endCand i k` is
`{name}_end_track{k}` (line 73). -/
structure Assignment where
  start : ℕ → ℤ
  endv : ℕ → ℤ
  assign : ℕ → ℕ → Bool
  endCand : ℕ → ℕ → ℤ

/-- Line 78's `sum(track_bools)` over tracks `0..K-1`. -/
def boolSum (σ : Assignment) (i : ℕ) : ℕ → ℤ
  | 0 => 0
  | K + 1 => boolSum σ i K + (if σ.assign i K = true then 1 else 0)

/-- All constraints the model posts, for trains `i < n` and tracks `k < K`:
- variable domains `[0, horizon]` (lines 54-55, 73);
- `start >= arrival_min` (line 60);
- `NewOptionalIntervalVar(start, duration, end, b)` (line 69) enforces
  `end = start + duration` whenever `b` is true;
- `end_candidate == start + duration` under `b` (line 74);
- `sum(track_bools) == 1` (line 78);
- `AddMaxEquality(end, end_candidates)` (line 79): `end` is one of the
  candidates and bounds them all from above;
- `AddNoOverlap(track_intervals[k])` (lines 83-84): two present intervals on
  the same track are disjoint as half-open sets `[start, end)` (an interval
  that is empty as a set overlaps nothing). -/
def feasible (I : ModelInput) (σ : Assignment) : Prop :=
  (∀ i, i < I.arrivals.length →
    0 ≤ σ.start i ∧ σ.start i ≤ horizon I ∧
    0 ≤ σ.endv i ∧ σ.endv i ≤ horizon I ∧
    (I.arrivals.getD i 0 : ℤ) ≤ σ.start i ∧
    (∀ k, k < I.durations.length →
      (σ.assign i k = true → σ.endv i = σ.start i + I.durations.getD k 0) ∧
      0 ≤ σ.endCand i k ∧ σ.endCand i k ≤ horizon I ∧
      (σ.assign i k = true → σ.endCand i k = σ.start i + I.durations.getD k 0)) ∧
    boolSum σ i I.durations.length = 1 ∧
    σ.endv i ∈ (List.range I.durations.length).map (fun k => σ.endCand i k) ∧
    (∀ k, k < I.durations.length → σ.endCand i k ≤ σ.endv i)) ∧
  (∀ k, k < I.durations.length → ∀ i, i < I.arrivals.length →
    ∀ j, j < I.arrivals.length → i ≠ j →
    σ.assign i k = true → σ.assign j k = true →
    σ.endv i ≤ σ.start j ∨ σ.endv j ≤ σ.start i ∨
    σ.endv i ≤ σ.start i ∨ σ.endv j ≤ σ.start j)

set_option synthInstance.maxSize 2048 in
instance feasibleDecidable (I : ModelInput) (σ : Assignment) :
    Decidable (feasible I σ) := by
  unfold feasible; infer_instance

/-! ### A fully serial schedule on one track

Used to settle the horizon-sufficiency claim: all trains are placed on track
`k0` in input order, each entering at its release or at the previous train's
exit, whichever is later. -/

/-- The release time of train `i` as an integer. -/
def serialArr (I : ModelInput) : ℕ → ℤ := fun i => ((I.arrivals.getD i 0 : ℕ) : ℤ)

/-- Entry minute of train `i` in the serial schedule with per-train run time
`d`: train 0 enters at its release, train `i+1` at the later of its release
and train `i`'s exit. -/
def serialStart (arr : ℕ → ℤ) (d : ℤ) : ℕ → ℤ
  | 0 => arr 0
  | i + 1 => max (arr (i + 1)) (serialStart arr d i + d)

/-- The serial schedule on track `k0` as a full valuation of the model's
variables: every presence boolean points at `k0`, and the end candidates of
the other tracks sit at their lower bound 0. -/
def serialSchedule (I : ModelInput) (k0 : ℕ) : Assignment where
  start := serialStart (serialArr I) (I.durations.getD k0 0)
  endv := fun i => serialStart (serialArr I) (I.durations.getD k0 0) i + I.durations.getD k0 0
  assign := fun _ k => k == k0
  endCand := fun i k =>
    if k = k0 then serialStart (serialArr I) (I.durations.getD k0 0) i + I.durations.getD k0 0
    else 0

/-! ### Train records and the result extractor (optimizer.py lines 29-35 and 113-126)

A train record is modelled as a Python dict: an ordered key-value list with
unique keys, where assignment replaces in place when the key exists and
appends otherwise. -/

/-- Values that the pipeline stores into a train record. Input records may
also carry these shapes in their pass-through fields. -/
inductive Val where
  | vstr : String → Val
  | vint : ℤ → Val
  | vbool : Bool → Val
  | vints : List ℤ → Val
  | vstrs : List String → Val
  | vfares : List (String × ℤ) → Val
deriving DecidableEq

/-- A Python dict as an ordered association list (keys unique in practice). -/
abbrev PyDict : Type := List (String × Val)

/-- Lookup of `d[k]`, `none` when the key is absent. -/
def dictLookup : PyDict → String → Option Val
  | [], _ => none
  | p :: rest, k => if p.1 = k then some p.2 else dictLookup rest k

/-- `k in d`. -/
def dictHasKey (d : PyDict) (k : String) : Bool := (dictLookup d k).isSome

/-- `d[k] = v`: replace in place when present, append otherwise. -/
def dictSet (d : PyDict) (k : String) (v : Val) : PyDict :=
  if dictHasKey d k then d.map (fun p => if p.1 = k then (k, v) else p)
  else d ++ [(k, v)]

/-- The key sequence of a dict. -/
def dictKeys (d : PyDict) : List String := d.map (fun p => p.1)

/-- Lines 29-35: the ingest loop mutates each train record in place, adding
`durations` and `arrival_min`. -/
def ingestTrain (t : PyDict) (ds : List ℤ) (arrival : ℤ) : PyDict :=
  dictSet (dictSet t "durations" (Val.vints ds)) "arrival_min" (Val.vint arrival)

/-- Lines 120-125: `enriched = t.copy()` followed by `enriched.update({...})`
with the three schedule fields (entry/exit clock strings and the 1-based
track number). -/
def enrich (t : PyDict) (entry exitClock : String) (trackNo : ℤ) : PyDict :=
  dictSet (dictSet (dictSet t "section_entry_time" (Val.vstr entry))
      "section_exit_time" (Val.vstr exitClock))
    "assigned_track" (Val.vint trackNo)

/-- The keys the engine writes into a train record anywhere in the pipeline;
per the input interface (spec section 6) no input field uses these names. -/
def engineKeys : List String :=
  ["durations", "arrival_min", "section_entry_time", "section_exit_time", "assigned_track"]

/-- The keys the result extractor itself adds. -/
def extractorKeys : List String :=
  ["section_entry_time", "section_exit_time", "assigned_track"]

/-! ### Concrete inputs used by the witnesses and counterexamples -/

/-- Spec scenario 1: two trains, one 20-minute track, arrivals 08:00/08:05. -/
def Iex : ModelInput := { durations := [20], arrivals := [480, 485] }

/-- The published schedule for `Iex`: train 0 runs 480-500, train 1 runs
500-520, both on track 0. -/
def σex : Assignment where
  start := fun i => if i = 0 then 480 else 500
  endv := fun i => if i = 0 then 500 else 520
  assign := fun _ _ => true
  endCand := fun i _ => if i = 0 then 500 else 520

/-- An input at which one track cannot serialize both trains inside the
horizon: duration 601, both trains released at minute 0, so the horizon is
`0 + 601 + 600 = 1201` but the second train would exit at 1202. -/
def Ic5 : ModelInput := { durations := [601], arrivals := [0, 0] }

/-- A train record as the pipeline sees it. -/
def trainEx : TrainIn := { train_name := "T1", priority := 1, arrival_min := 480 }

/-- A track whose speed is zero: line 32 divides by it. -/
def zeroSpeedTrack : Track := { length_km := 5, speed_kmph := 0 }

/-- A track whose speed is negative: line 32 divides without error and
truncation toward zero gives `int(-1.2) = -1`. -/
def negSpeedTrack : Track := { length_km := 1, speed_kmph := -50 }

/-- An input train record for the round-trip claim. -/
def tEx : PyDict :=
  [("id", Val.vint 1), ("train_name", Val.vstr "Rajdhani"),
   ("priority", Val.vint 1), ("arrival_time", Val.vstr "08:00"),
   ("days_of_running", Val.vstrs ["Mon", "Tue"]),
   ("classes_available", Val.vbool true),
   ("fare_details", Val.vfares [("3A", 1500)])]

/-! ### Helper lemmas -/

/-- If every speed is nonzero the duration loop cannot raise, but one zero
speed anywhere in the track list kills it (line 32). -/
theorem computeDurations_eq_none :
    ∀ tracks : List Track, (∃ tr ∈ tracks, tr.speed_kmph = 0) →
      computeDurations tracks = none := by
  intro tracks
  induction tracks with
  | nil => intro h; simp at h
  | cons tr rest ih =>
    intro h
    rcases h with ⟨tr0, htr0, hsp⟩
    rcases List.mem_cons.mp htr0 with h1 | h1
    · subst h1
      simp [computeDurations, durationOfTrack, hsp]
    · have hrest := ih ⟨tr0, h1, hsp⟩
      simp only [computeDurations, hrest]
      cases durationOfTrack tr <;> rfl

/-! ### Claims -/

/-- C10: the clock conversion is periodic with period 1440: the datetime hour
and minute after adding `m` minutes to midnight depend only on `m mod 1440`,
and the formatted string carries no day indication. -/
theorem C10_clock_periodic (m : ℕ) :
    minutes_to_clock m = minutes_to_clock (m % 1440) := by
  unfold minutes_to_clock
  have h1 : m % 1440 / 60 % 24 = m / 60 % 24 := by omega
  have h2 : m % 1440 % 60 = m % 60 := by omega
  rw [h1, h2]

/-- C1: the claim says the weight is `max(1, 10 - priority)` and hence at
least 1; the code's weight (line 96) is unclamped, so a train of priority 11
gets weight `-1`, differing from the claimed clamp, and the objective then
strictly prefers ending that train later (delay is rewarded). -/
theorem C1_weight_unclamped :
    weight 11 = -1 ∧ weight 11 ≠ max 1 (10 - 11) ∧
    objective [11] [200] < objective [11] [100] := by decide

/-- C8: the claim requires INFEASIBLE and timeout-without-solution to be
reported distinctly through an explicit result code; the script folds every
non-success status into one `else` branch, printing the identical message and
writing no output either way, so the two outcomes are indistinguishable to
the caller. -/
theorem C8_report_not_distinct :
    statusMessage CpStatus.infeasible = statusMessage CpStatus.unknown ∧
    writesOutput CpStatus.infeasible = writesOutput CpStatus.unknown :=
  ⟨rfl, rfl⟩

/-- C6 (amended): with zero tracks the run does not report INFEASIBLE; it
dies of an uncaught ValueError at the horizon computation (line 43 when there
are no trains, line 44's `max()` of the empty duration list otherwise),
before the model exists, and produces no output record set. -/
theorem C6_zero_tracks_uncaught (trains : List TrainIn) (st : CpStatus) :
    runOutcome [] trains st = RunOutcome.uncaught PyError.valueError := by
  cases trains <;> rfl

/-- C6 counterexample: on a zero-track input the claimed INFEASIBLE/no-solution
report never happens — even with the solver poised to answer INFEASIBLE, the
run ends in an uncaught error, which is not the no-solution report. -/
theorem C6_counterexample :
    runOutcome [] [trainEx] CpStatus.infeasible = RunOutcome.uncaught PyError.valueError ∧
    RunOutcome.uncaught PyError.valueError ≠ RunOutcome.noFeasibleMessage :=
  ⟨rfl, by decide⟩

/-- C7 (amended): a track of speed exactly zero makes the run fail before
model construction (ZeroDivisionError at line 32 when trains exist, else the
empty-`max` ValueError), so no output is written; negative speeds are not
covered — they divide fine (see the counterexample). -/
theorem C7_zero_speed_uncaught (tracks : List Track) (trains : List TrainIn)
    (st : CpStatus) (h : ∃ tr ∈ tracks, tr.speed_kmph = 0) :
    ∃ e, runOutcome tracks trains st = RunOutcome.uncaught e := by
  cases trains with
  | nil => exact ⟨PyError.valueError, rfl⟩
  | cons t ts =>
    refine ⟨PyError.zeroDivisionError, ?_⟩
    simp [runOutcome, preModel, computeDurations_eq_none tracks h]

theorem C7_witness :
    ∃ e, runOutcome [zeroSpeedTrack] [trainEx] CpStatus.optimal = RunOutcome.uncaught e :=
  C7_zero_speed_uncaught [zeroSpeedTrack] [trainEx] CpStatus.optimal
    ⟨zeroSpeedTrack, by simp, rfl⟩

/-- C7 counterexample: a track of speed −50 km/h is non-positive, yet the run
sails past ingestion — `int((1 / -50) * 60) = -1` — and reaches model
construction with horizon `480 + (-1) + 600 = 1079`, contradicting "fails
before model construction". -/
theorem C7_counterexample :
    preModel [negSpeedTrack] [trainEx] = Except.ok ([-1], 1079) := by
  simp only [preModel, computeDurations, durationOfTrack, negSpeedTrack, trainEx, pyInt,
    horizon, latest_arrival, longest_run, pymax, List.map]
  norm_num

/-- C2: in any assignment satisfying the model, two distinct trains assigned
to the same track have disjoint half-open occupancy intervals — one exits no
later than the other enters. -/
theorem C2_track_exclusive (I : ModelInput) (σ : Assignment) (hf : feasible I σ)
    (k i j : ℕ) (hk : k < I.durations.length)
    (hi : i < I.arrivals.length) (hj : j < I.arrivals.length) (hne : i ≠ j)
    (hik : σ.assign i k = true) (hjk : σ.assign j k = true) :
    σ.endv i ≤ σ.start j ∨ σ.endv j ≤ σ.start i := by
  obtain ⟨hfi, hfno⟩ := hf
  have hei := ((hfi i hi).2.2.2.2.2.1 k hk).1 hik
  have hej := ((hfi j hj).2.2.2.2.2.1 k hk).1 hjk
  have hno := hfno k hk i hi j hj hne hik hjk
  rcases hno with h | h | h | h <;> omega

theorem C2_witness : σex.endv 0 ≤ σex.start 1 ∨ σex.endv 1 ≤ σex.start 0 :=
  C2_track_exclusive Iex σex (by decide) 0 0 1 (by decide) (by decide) (by decide)
    (by decide) (by decide) (by decide)

/-- C3: in any assignment satisfying the model, the exit minute of a train is
exactly its entry minute plus the duration of the track it is assigned to:
the optional interval of the active track (line 69) pins `end = start +
duration`, leaving no slack despite `end` also being the max of the
conditional end candidates (line 79). -/
theorem C3_exit_eq_entry_plus_duration (I : ModelInput) (σ : Assignment)
    (hf : feasible I σ) (i k : ℕ) (hi : i < I.arrivals.length)
    (hk : k < I.durations.length) (hik : σ.assign i k = true) :
    σ.endv i = σ.start i + I.durations.getD k 0 :=
  ((hf.1 i hi).2.2.2.2.2.1 k hk).1 hik

theorem C3_witness : σex.endv 0 = σex.start 0 + Iex.durations.getD 0 0 :=
  C3_exit_eq_entry_plus_duration Iex σex (by decide) 0 0 (by decide) (by decide) (by decide)

/-- C4: in any assignment satisfying the model, a train's section-entry
minute is at least its release time (line 60). -/
theorem C4_entry_ge_release (I : ModelInput) (σ : Assignment) (hf : feasible I σ)
    (i : ℕ) (hi : i < I.arrivals.length) :
    (I.arrivals.getD i 0 : ℤ) ≤ σ.start i :=
  (hf.1 i hi).2.2.2.2.1

theorem C4_witness : (Iex.arrivals.getD 0 0 : ℤ) ≤ σex.start 0 :=
  C4_entry_ge_release Iex σex (by decide) 0 (by decide)

/-! ### Lemmas about `pymax` and the serial schedule -/

theorem le_foldl_max {α : Type} [LinearOrder α] (l : List α) (a : α) :
    a ≤ l.foldl max a := by
  induction l generalizing a with
  | nil => exact le_refl a
  | cons x xs ih => exact le_trans (le_max_left a x) (ih (max a x))

theorem mem_le_foldl_max {α : Type} [LinearOrder α] (l : List α) :
    ∀ a x : α, x ∈ l → x ≤ l.foldl max a := by
  induction l with
  | nil => intro a x hx; cases hx
  | cons y ys ih =>
    intro a x hx
    rcases List.mem_cons.mp hx with h | h
    · subst h
      exact le_trans (le_max_right a x) (le_foldl_max ys (max a x))
    · exact ih (max a y) x h

/-- Every member of a list is bounded by its Python max. -/
theorem le_pymax {α : Type} [LinearOrder α] (dflt : α) (l : List α) (x : α)
    (hx : x ∈ l) : x ≤ pymax dflt l := by
  cases l with
  | nil => cases hx
  | cons y ys =>
    rcases List.mem_cons.mp hx with h | h
    · subst h; exact le_foldl_max ys x
    · exact mem_le_foldl_max ys y x h

theorem getD_mem_of_lt {α : Type} (l : List α) (n : ℕ) (d : α)
    (h : n < l.length) : l.getD n d ∈ l := by
  rw [List.getD_eq_getElem l d h]
  exact List.getElem_mem h

theorem serialStart_le_arr (arr : ℕ → ℤ) (d : ℤ) (i : ℕ) :
    arr i ≤ serialStart arr d i := by
  cases i with
  | zero => exact le_refl _
  | succ n => exact le_max_left _ _

theorem serialStart_step (arr : ℕ → ℤ) (d : ℤ) (i : ℕ) :
    serialStart arr d i + d ≤ serialStart arr d (i + 1) :=
  le_max_right _ _

theorem serialStart_succ_le (arr : ℕ → ℤ) (d : ℤ) (hd : 0 ≤ d) (i : ℕ) :
    serialStart arr d i ≤ serialStart arr d (i + 1) :=
  le_trans (le_add_of_nonneg_right hd) (serialStart_step arr d i)

theorem serialStart_mono (arr : ℕ → ℤ) (d : ℤ) (hd : 0 ≤ d) {i j : ℕ}
    (hij : i ≤ j) : serialStart arr d i ≤ serialStart arr d j :=
  monotone_nat_of_le_succ (serialStart_succ_le arr d hd) hij

/-- In the serial schedule, an earlier train's exit never exceeds a later
train's entry. -/
theorem serialStart_chain (arr : ℕ → ℤ) (d : ℤ) (hd : 0 ≤ d) {i j : ℕ}
    (hij : i < j) : serialStart arr d i + d ≤ serialStart arr d j :=
  le_trans (serialStart_step arr d i) (serialStart_mono arr d hd hij)

/-- Entry of the `i`-th serial train is at most `A + i*d` when all releases
are bounded by `A`. -/
theorem serialStart_le_bound (arr : ℕ → ℤ) (d : ℤ) (hd : 0 ≤ d) (A : ℤ)
    (hA : ∀ i, arr i ≤ A) : ∀ i : ℕ, serialStart arr d i ≤ A + (i : ℤ) * d := by
  intro i
  induction i with
  | zero => simpa using hA 0
  | succ n ih =>
    show max (arr (n + 1)) (serialStart arr d n + d) ≤ A + ((n + 1 : ℕ) : ℤ) * d
    have hexp : ((n + 1 : ℕ) : ℤ) * d = (n : ℤ) * d + d := by push_cast; ring
    rw [hexp]
    have hnd : (0 : ℤ) ≤ (n : ℤ) * d := mul_nonneg (by positivity) hd
    exact max_le (by have := hA (n + 1); linarith) (by linarith)

/-- `sum(track_bools)` of the serial schedule: exactly the one boolean of
track `k0` is set. -/
theorem boolSum_serial (I : ModelInput) (k0 i : ℕ) (K : ℕ) :
    boolSum (serialSchedule I k0) i K = if k0 < K then 1 else 0 := by
  induction K with
  | zero => simp [boolSum]
  | succ n ih =>
    rw [boolSum, ih]
    rw [show (serialSchedule I k0).assign i n = (n == k0) from rfl]
    simp only [beq_iff_eq]
    split_ifs <;> omega

/-- C5 counterexample: one 601-minute track and two trains released at 0
give horizon `0 + 601 + 600 = 1201`, yet serializing the two trains needs
`2 * 601 = 1202` minutes of track time, so NO assignment satisfies the
model: the claimed horizon guarantee fails and the model is infeasible. -/
theorem C5_counterexample : ¬ ∃ σ, feasible Ic5 σ := by
  rintro ⟨σ, hf⟩
  obtain ⟨hfi, hfno⟩ := hf
  obtain ⟨hs0lo, -, -, he0hi, -, htr0, hsum0, -, -⟩ := hfi 0 (by decide)
  obtain ⟨hs1lo, -, -, he1hi, -, htr1, hsum1, -, -⟩ := hfi 1 (by decide)
  have hb0 : σ.assign 0 0 = true := by
    by_cases hb : σ.assign 0 0 = true
    · exact hb
    · simp [Ic5, boolSum, hb] at hsum0
  have hb1 : σ.assign 1 0 = true := by
    by_cases hb : σ.assign 1 0 = true
    · exact hb
    · simp [Ic5, boolSum, hb] at hsum1
  have he0 := (htr0 0 (by decide)).1 hb0
  have he1 := (htr1 0 (by decide)).1 hb1
  have hd601 : Ic5.durations.getD 0 0 = 601 := rfl
  rw [hd601] at he0 he1
  have hH : horizon Ic5 = 1201 := by decide
  rw [hH] at he0hi he1hi
  have hno := hfno 0 (by decide) 0 (by decide) 1 (by decide) (by decide) hb0 hb1
  rcases hno with h | h | h | h <;> omega

/-- C5 (amended): the horizon guarantee holds only when the serial makespan
fits, i.e. when some track `k0` has nonnegative duration with
`n * duration(k0) ≤ max duration + 600`; then the fully serial ordering of
all trains on `k0` satisfies every model constraint within the horizon, so
the model is feasible.  (The unconditional claim is refuted by
`C5_counterexample`.) -/
theorem C5_serial_feasible (I : ModelInput) (k0 : ℕ)
    (hk : k0 < I.durations.length) (hn : I.arrivals ≠ [])
    (hd : 0 ≤ I.durations.getD k0 0)
    (hfit : (I.arrivals.length : ℤ) * I.durations.getD k0 0 ≤
      longest_run I.durations + 600) :
    ∃ σ, feasible I σ := by
  have harr0 : ∀ m, 0 ≤ serialArr I m := fun m => Int.natCast_nonneg _
  have harrA : ∀ m, serialArr I m ≤ ((latest_arrival I.arrivals : ℕ) : ℤ) := by
    intro m
    rcases Nat.lt_or_ge m I.arrivals.length with hm | hm
    · exact Nat.cast_le.mpr (le_pymax 0 _ _ (getD_mem_of_lt _ _ _ hm))
    · show ((I.arrivals.getD m 0 : ℕ) : ℤ) ≤ _
      rw [List.getD_eq_default _ _ hm]
      exact Int.natCast_nonneg _
  have hA0 : (0 : ℤ) ≤ ((latest_arrival I.arrivals : ℕ) : ℤ) := Int.natCast_nonneg _
  have hdmax : I.durations.getD k0 0 ≤ longest_run I.durations :=
    le_pymax 0 _ _ (getD_mem_of_lt _ _ _ hk)
  have hub : ∀ i : ℕ, i < I.arrivals.length →
      serialStart (serialArr I) (I.durations.getD k0 0) i + I.durations.getD k0 0 ≤
        horizon I := by
    intro i hi
    have hb := serialStart_le_bound (serialArr I) _ hd _ harrA i
    have hstep : ((i : ℤ) + 1) * I.durations.getD k0 0 ≤
        (I.arrivals.length : ℤ) * I.durations.getD k0 0 := by
      apply mul_le_mul_of_nonneg_right _ hd
      exact_mod_cast Nat.succ_le_of_lt hi
    have hexp : ((i : ℤ) + 1) * I.durations.getD k0 0 =
        (i : ℤ) * I.durations.getD k0 0 + I.durations.getD k0 0 := by ring
    unfold horizon
    linarith
  refine ⟨serialSchedule I k0, ?_, ?_⟩
  · intro i hi
    refine ⟨?_, ?_, ?_, ?_, ?_, ?_, ?_, ?_, ?_⟩
    · exact le_trans (harr0 i) (serialStart_le_arr _ _ i)
    · exact le_trans (le_add_of_nonneg_right hd) (hub i hi)
    · exact add_nonneg (le_trans (harr0 i) (serialStart_le_arr _ _ i)) hd
    · exact hub i hi
    · exact serialStart_le_arr (serialArr I) _ i
    · intro k hkK
      refine ⟨?_, ?_, ?_, ?_⟩
      · intro hbk
        have hkk : k = k0 := eq_of_beq hbk
        rw [hkk]
        rfl
      · show (0 : ℤ) ≤ if k = k0 then
            serialStart (serialArr I) (I.durations.getD k0 0) i + I.durations.getD k0 0
          else 0
        by_cases hkk : k = k0
        · rw [if_pos hkk]
          exact add_nonneg (le_trans (harr0 i) (serialStart_le_arr _ _ i)) hd
        · rw [if_neg hkk]
      · show (if k = k0 then
            serialStart (serialArr I) (I.durations.getD k0 0) i + I.durations.getD k0 0
          else 0) ≤ horizon I
        by_cases hkk : k = k0
        · rw [if_pos hkk]
          exact hub i hi
        · rw [if_neg hkk]
          unfold horizon
          linarith
      · intro hbk
        have hkk : k = k0 := eq_of_beq hbk
        rw [hkk]
        simp [serialSchedule]
    · rw [boolSum_serial]
      exact if_pos hk
    · refine List.mem_map.mpr ⟨k0, List.mem_range.mpr hk, ?_⟩
      show (if k0 = k0 then
          serialStart (serialArr I) (I.durations.getD k0 0) i + I.durations.getD k0 0
        else 0) =
        serialStart (serialArr I) (I.durations.getD k0 0) i + I.durations.getD k0 0
      rw [if_pos rfl]
    · intro k hkK
      show (if k = k0 then
          serialStart (serialArr I) (I.durations.getD k0 0) i + I.durations.getD k0 0
        else 0) ≤
        serialStart (serialArr I) (I.durations.getD k0 0) i + I.durations.getD k0 0
      by_cases hkk : k = k0
      · rw [if_pos hkk]
      · rw [if_neg hkk]
        exact add_nonneg (le_trans (harr0 i) (serialStart_le_arr _ _ i)) hd
  · intro k hkK i hi j hj hne hbi hbj
    have hki : k = k0 := eq_of_beq hbi
    subst hki
    rcases lt_or_gt_of_ne hne with hij | hij
    · exact Or.inl (serialStart_chain (serialArr I) _ hd hij)
    · exact Or.inr (Or.inl (serialStart_chain (serialArr I) _ hd hij))

theorem C5_witness : ∃ σ, feasible Iex σ :=
  C5_serial_feasible Iex 0 (by decide) (by decide) (by decide) (by decide)

/-! ### Dict lemmas for the result extractor -/

/-- Replacing the pairs keyed `k` in place does not change lookups of any
other key. -/
theorem dictLookup_map_replace (k : String) (v : Val) :
    ∀ (d : PyDict) (k2 : String), k2 ≠ k →
      dictLookup (d.map (fun p => if p.1 = k then (k, v) else p)) k2 = dictLookup d k2 := by
  intro d
  induction d with
  | nil => intro k2 _; rfl
  | cons p rest ih =>
    intro k2 hk2
    rw [List.map_cons]
    by_cases hp : p.1 = k
    · rw [if_pos hp]
      show (if k = k2 then some v else dictLookup (rest.map _) k2) =
        (if p.1 = k2 then some p.2 else dictLookup rest k2)
      rw [if_neg (fun hh => hk2 hh.symm), if_neg (fun hh : p.1 = k2 => hk2 (hh ▸ hp))]
      exact ih k2 hk2
    · rw [if_neg hp]
      show (if p.1 = k2 then some p.2 else dictLookup (rest.map _) k2) =
        (if p.1 = k2 then some p.2 else dictLookup rest k2)
      rw [ih k2 hk2]

/-- Appending a fresh binding at the end does not change lookups of any
other key. -/
theorem dictLookup_append_single (k : String) (v : Val) (k2 : String)
    (hk2 : k2 ≠ k) :
    ∀ d : PyDict, dictLookup (d ++ [(k, v)]) k2 = dictLookup d k2 := by
  intro d
  induction d with
  | nil =>
    show (if k = k2 then some v else none) = none
    rw [if_neg (fun hh => hk2 hh.symm)]
  | cons p rest ih =>
    show (if p.1 = k2 then some p.2 else dictLookup (rest ++ [(k, v)]) k2) =
      (if p.1 = k2 then some p.2 else dictLookup rest k2)
    rw [ih]

/-- Python `d[k] = v` leaves every other key's value untouched. -/
theorem dictLookup_dictSet (d : PyDict) (k : String) (v : Val) (k2 : String)
    (hk2 : k2 ≠ k) : dictLookup (dictSet d k v) k2 = dictLookup d k2 := by
  unfold dictSet
  by_cases hh : dictHasKey d k
  · rw [if_pos hh]
    exact dictLookup_map_replace k v d k2 hk2
  · rw [if_neg hh]
    exact dictLookup_append_single k v k2 hk2 d

/-- Python `d[k] = v` adds at most the key `k` to the key set. -/
theorem dictKeys_dictSet (d : PyDict) (k : String) (v : Val) :
    ∀ k2, k2 ∈ dictKeys (dictSet d k v) → k2 ∈ dictKeys d ∨ k2 = k := by
  intro k2 hk2
  unfold dictSet at hk2
  by_cases hh : dictHasKey d k
  · rw [if_pos hh] at hk2
    unfold dictKeys at hk2 ⊢
    rw [List.map_map] at hk2
    rcases List.mem_map.mp hk2 with ⟨p, hp, hpe⟩
    by_cases hpk : p.1 = k
    · right
      rw [← hpe]
      simp [Function.comp, hpk]
    · left
      refine List.mem_map.mpr ⟨p, hp, ?_⟩
      rw [← hpe]
      simp [Function.comp, hpk]
  · rw [if_neg hh] at hk2
    unfold dictKeys at hk2 ⊢
    rw [List.map_append] at hk2
    rcases List.mem_append.mp hk2 with h | h
    · exact Or.inl h
    · right
      simpa using h

/-- C9: on a successful run every input field whose name is not one of the
engine-written keys (per the section-6 input schema no input field is) reads
back unchanged from the enriched output record, and the result extractor's
own update only ever adds the three schedule keys. -/
theorem C9_round_trip (t : PyDict) (ds : List ℤ) (a : ℤ) (e x : String)
    (tk : ℤ) (k : String) (hk : k ∉ engineKeys) :
    dictLookup (enrich (ingestTrain t ds a) e x tk) k = dictLookup t k ∧
    dictKeys (enrich (ingestTrain t ds a) e x tk) ⊆
      dictKeys (ingestTrain t ds a) ++ extractorKeys := by
  constructor
  · simp only [engineKeys, List.mem_cons, List.not_mem_nil, or_false, not_or] at hk
    obtain ⟨h1, h2, h3, h4, h5⟩ := hk
    unfold enrich ingestTrain
    rw [dictLookup_dictSet _ _ _ _ h5, dictLookup_dictSet _ _ _ _ h4,
      dictLookup_dictSet _ _ _ _ h3, dictLookup_dictSet _ _ _ _ h2,
      dictLookup_dictSet _ _ _ _ h1]
  · intro k2 hk2
    unfold enrich at hk2
    rcases dictKeys_dictSet _ _ _ k2 hk2 with h | h
    · rcases dictKeys_dictSet _ _ _ k2 h with h' | h'
      · rcases dictKeys_dictSet _ _ _ k2 h' with h'' | h''
        · exact List.mem_append.mpr (Or.inl h'')
        · exact List.mem_append.mpr (Or.inr (by simp [extractorKeys, h'']))
      · exact List.mem_append.mpr (Or.inr (by simp [extractorKeys, h']))
    · exact List.mem_append.mpr (Or.inr (by simp [extractorKeys, h]))

theorem C9_witness :
    dictLookup (enrich (ingestTrain tEx [20] 480) "08:00 AM" "08:20 AM" 1) "train_name" =
      dictLookup tEx "train_name" ∧
    dictKeys (enrich (ingestTrain tEx [20] 480) "08:00 AM" "08:20 AM" 1) ⊆
      dictKeys (ingestTrain tEx [20] 480) ++ extractorKeys :=
  C9_round_trip tEx [20] 480 "08:00 AM" "08:20 AM" 1 "train_name" (by decide)

end SIH
